import Mathlib

/-!
Verification development for the civic-issue-reporting client.

The definitions below are a shallow embedding of the client-side logic of
the repository: the public Issue Collection View (fetch, push-event
handlers, filter/sort projection), the Analytics aggregators (monthly,
category, day-of-week, location hotspots, resolution times) and the
Report Submission Form validation.  Timestamps are modelled as integer
epoch milliseconds (the content of a JS `Date`), numeric row fields as
integers, and nullable columns as `Option`.
-/

/-- The sole domain entity: one citizen-submitted issue row. -/
structure Issue where
  id : Nat
  title : String
  description : String
  category : String
  status : String
  location_name : Option String
  created_at : Int
  resolved_at : Option Int
  upvotes_count : Option Int
  priority_score : Option Int
  is_spam : Bool
deriving Repr, DecidableEq

/-- One event delivered by the push subscription on the issues table. -/
inductive PushEvent where
  | insert (row : Issue)
  | update (row : Issue)
  | delete (row : Issue)
deriving Repr, DecidableEq

/-- The Collection View's subscription payload handler: an INSERT is
prepended only when the row is not spam-flagged (plus a toast, not
modelled in the state); an UPDATE replaces the matching row by id with
no spam check; a DELETE is not handled. -/
def handlePush (prev : List Issue) : PushEvent → List Issue
  | .insert row => if !row.is_spam then row :: prev else prev
  | .update row => prev.map (fun report => if report.id == row.id then row else report)
  | .delete _ => prev

/-- Folding a whole sequence of push events into the view state. -/
def handlePushAll (init : List Issue) (events : List PushEvent) : List Issue :=
  events.foldl handlePush init

/-- Statement-side predicate: an event is either not an update, or an
update whose payload row is not spam-flagged. -/
def updateNonSpam : PushEvent → Bool
  | .update row => !row.is_spam
  | _ => true

/-- Concrete sample row used for witnesses and counterexamples. -/
def sampleIssue : Issue :=
  { id := 1, title := "Pothole on Elm", description := "deep pothole",
    category := "Pothole", status := "new", location_name := some "Midtown",
    created_at := 1704412800000, resolved_at := none,
    upvotes_count := some 0, priority_score := some 0, is_spam := false }

/-- An update payload for the same id, now flagged as spam. -/
def spamUpdate : Issue :=
  { sampleIssue with status := "in_progress", is_spam := true }

/-- C1 fails as stated: starting from a state holding only non-spam
issues, a single UPDATE push event whose payload row has is_spam = true
replaces the matching row and leaves a spam-flagged issue in the state:
the update branch performs no client-side spam filtering. -/
theorem claim_C1_counterexample :
    (∀ i ∈ [sampleIssue], i.is_spam = false) ∧
    ∃ i ∈ handlePushAll [sampleIssue] [PushEvent.update spamUpdate], i.is_spam = true := by
  decide

/-- C1 (amended): starting from an initial state containing only
non-spam issues, after any sequence of push events in which every
UPDATE payload is non-spam, no spam-flagged issue is present; the
INSERT handler filters spam client-side, but the UPDATE handler
performs no spam check, so the restriction on update payloads is
required. -/
theorem claim_C1 (init : List Issue) (events : List PushEvent)
    (hinit : ∀ i ∈ init, i.is_spam = false)
    (hupd : events.all updateNonSpam = true) :
    ∀ i ∈ handlePushAll init events, i.is_spam = false := by
  induction events generalizing init with
  | nil => simpa [handlePushAll] using hinit
  | cons e es ih =>
    rw [List.all_cons, Bool.and_eq_true] at hupd
    have step : ∀ i ∈ handlePush init e, i.is_spam = false := by
      intro i hi
      cases e with
      | insert row =>
        simp only [handlePush] at hi
        by_cases hrow : row.is_spam
        · simp [hrow] at hi
          exact hinit i hi
        · simp [hrow] at hi
          rcases hi with hi | hi
          · simpa [hi] using (by simpa using hrow)
          · exact hinit i hi
      | update row =>
        have hrow : row.is_spam = false := by
          simpa [updateNonSpam] using hupd.1
        simp only [handlePush, List.mem_map] at hi
        rcases hi with ⟨r, hr, hri⟩
        by_cases hid : r.id == row.id
        · simp [hid] at hri
          simpa [← hri] using hrow
        · simp [hid] at hri
          simpa [← hri] using hinit r hr
      | delete row =>
        simpa [handlePush] using hinit i hi
    simpa [handlePushAll] using ih (handlePush init e) step hupd.2

/-- Closed instantiation of the amended C1 at concrete inputs: after a
spam insert (dropped) and a non-spam update, the surviving state entry
is non-spam. -/
theorem claim_C1_witness : sampleIssue.is_spam = false :=
  claim_C1 [sampleIssue] [PushEvent.insert spamUpdate, PushEvent.update sampleIssue]
    (by decide) (by decide) sampleIssue (by decide)

/-- C2: a push INSERT event whose payload row has is_spam = true leaves
the Collection View state unchanged; the spam-flagged row is never
prepended. -/
theorem claim_C2 (prev : List Issue) (row : Issue) (h : row.is_spam = true) :
    handlePush prev (PushEvent.insert row) = prev := by
  simp [handlePush, h]

/-- Closed instantiation of C2 at a concrete spam-flagged insert. -/
theorem claim_C2_witness :
    handlePush [sampleIssue] (PushEvent.insert spamUpdate) = [sampleIssue] :=
  claim_C2 [sampleIssue] spamUpdate (by decide)

/-! ## Filtering and sorting of the Collection View projection -/

/-- Model of JS `String.prototype.toLowerCase` (character-wise lowering). -/
def strToLower (s : String) : String := ⟨s.data.map Char.toLower⟩

/-- Model of JS `s.includes(pat)`: `pat` occurs as a contiguous
substring of `s`. -/
def strIncludes (s pat : String) : Bool := decide (pat.data <:+: s.data)

/-- Search predicate of the filter effect: case-insensitive substring
match of the search term against title, description or location_name;
an absent location_name contributes nothing. -/
def matchesSearch (report : Issue) (searchTerm : String) : Bool :=
  strIncludes (strToLower report.title) (strToLower searchTerm) ||
  strIncludes (strToLower report.description) (strToLower searchTerm) ||
  (match report.location_name with
   | some name => strIncludes (strToLower name) (strToLower searchTerm)
   | none => false)

/-- Status predicate: equality with the filter, or always true for "all". -/
def matchesStatus (report : Issue) (statusFilter : String) : Bool :=
  statusFilter == "all" || report.status == statusFilter

/-- Category predicate: equality with the filter, or always true for "all". -/
def matchesCategory (report : Issue) (categoryFilter : String) : Bool :=
  categoryFilter == "all" || report.category == categoryFilter

/-- The filter stage of the Collection View's derived projection. -/
def filterReports (reports : List Issue) (searchTerm statusFilter categoryFilter : String) :
    List Issue :=
  reports.filter (fun report =>
    matchesSearch report searchTerm && matchesStatus report statusFilter &&
      matchesCategory report categoryFilter)

/-- The sort comparator of the Collection View, as a signed integer in
the style of a JS comparator. -/
def sortCmp (sortBy : String) (a b : Issue) : Int :=
  match sortBy with
  | "popular" => (b.upvotes_count.getD 0) - (a.upvotes_count.getD 0)
  | "priority" => (b.priority_score.getD 0) - (a.priority_score.getD 0)
  | "newest" => b.created_at - a.created_at
  | "oldest" => a.created_at - b.created_at
  | _ => b.created_at - a.created_at

/-- The sort stage: a stable sort by the comparator, as guaranteed for
`Array.prototype.sort`. -/
def sortReports (l : List Issue) (sortBy : String) : List Issue :=
  l.mergeSort (fun a b => decide (sortCmp sortBy a b ≤ 0))

/-- The full derived projection: filter then stable sort. -/
def filteredReports (reports : List Issue)
    (searchTerm statusFilter categoryFilter sortBy : String) : List Issue :=
  sortReports (filterReports reports searchTerm statusFilter categoryFilter) sortBy

/-- The numeric key actively compared by a given sort key. -/
def sortKey (sortBy : String) (r : Issue) : Int :=
  match sortBy with
  | "popular" => r.upvotes_count.getD 0
  | "priority" => r.priority_score.getD 0
  | _ => r.created_at

/-- The ordering the specification ascribes to each sort key:
"popular" and "priority" descending on the numeric field (absent
treated as 0), "oldest" ascending on created_at, "newest" and anything
unrecognized descending on created_at. -/
def claimOrder (sortBy : String) (a b : Issue) : Prop :=
  match sortBy with
  | "popular" => b.upvotes_count.getD 0 ≤ a.upvotes_count.getD 0
  | "priority" => b.priority_score.getD 0 ≤ a.priority_score.getD 0
  | "oldest" => a.created_at ≤ b.created_at
  | _ => b.created_at ≤ a.created_at

theorem sortCmp_le_iff (sortBy : String) (a b : Issue) :
    sortCmp sortBy a b ≤ 0 ↔ claimOrder sortBy a b := by
  unfold sortCmp claimOrder
  split <;> (try split) <;> simp_all

theorem sortCmp_trans (sortBy : String) (a b c : Issue)
    (h1 : sortCmp sortBy a b ≤ 0) (h2 : sortCmp sortBy b c ≤ 0) :
    sortCmp sortBy a c ≤ 0 := by
  revert h1 h2
  unfold sortCmp
  split <;> omega

theorem sortCmp_total (sortBy : String) (a b : Issue) :
    sortCmp sortBy a b ≤ 0 ∨ sortCmp sortBy b a ≤ 0 := by
  unfold sortCmp
  split <;> omega

theorem sortCmp_zero_of_key_eq (sortBy : String) (a b : Issue)
    (h : sortKey sortBy a = sortKey sortBy b) : sortCmp sortBy a b ≤ 0 := by
  revert h
  unfold sortCmp sortKey
  split <;> (try split) <;> simp_all

theorem sortLE_trans (sortBy : String) : ∀ (a b c : Issue),
    (fun a b => decide (sortCmp sortBy a b ≤ 0)) a b →
    (fun a b => decide (sortCmp sortBy a b ≤ 0)) b c →
    (fun a b => decide (sortCmp sortBy a b ≤ 0)) a c := by
  intro a b c hab hbc
  simp only [decide_eq_true_eq] at *
  exact sortCmp_trans sortBy a b c hab hbc

theorem sortLE_total (sortBy : String) : ∀ (a b : Issue),
    (fun a b => decide (sortCmp sortBy a b ≤ 0)) a b ||
    (fun a b => decide (sortCmp sortBy a b ≤ 0)) b a := by
  intro a b
  rcases sortCmp_total sortBy a b with h | h <;> simp [h]

/-- C3: an issue of the base collection is in the derived projection if
and only if it satisfies all three active predicates (case-insensitive
substring search over title/description/location_name with absent
location_name never matching on its own, status equality or "all",
category equality or "all"); and with an empty search text and both
filters "all", every issue of the base collection is in the
projection. -/
theorem claim_C3 (reports : List Issue)
    (searchTerm statusFilter categoryFilter sortBy : String) :
    (∀ report ∈ reports,
      (report ∈ filteredReports reports searchTerm statusFilter categoryFilter sortBy ↔
        (matchesSearch report searchTerm = true ∧ matchesStatus report statusFilter = true ∧
          matchesCategory report categoryFilter = true))) ∧
    (∀ report ∈ reports, report ∈ filteredReports reports "" "all" "all" sortBy) := by
  constructor
  · intro report hmem
    unfold filteredReports sortReports filterReports
    rw [List.mem_mergeSort, List.mem_filter]
    simp [hmem, and_assoc]
  · intro report hmem
    unfold filteredReports sortReports filterReports
    rw [List.mem_mergeSort, List.mem_filter]
    refine ⟨hmem, ?_⟩
    have hsearch : matchesSearch report "" = true := by
      have : strIncludes (strToLower report.title) (strToLower "") = true := by
        simp [strIncludes, strToLower]
      simp [matchesSearch, this]
    simp [hsearch, matchesStatus, matchesCategory]

/-- Closed instantiation of C3: with empty search and "all" filters the
sample issue stays in the projection. -/
theorem claim_C3_witness :
    sampleIssue ∈ filteredReports [sampleIssue] "" "all" "all" "newest" :=
  (claim_C3 [sampleIssue] "" "all" "all" "newest").2 sampleIssue (by simp)

/-- C4: for every list and sort key, the sort stage returns a
permutation of its input that is ordered as the claim states
("popular" descending by upvotes_count, "priority" descending by
priority_score with absent numeric fields as 0, "oldest" ascending by
created_at, "newest" and unrecognized keys descending by created_at),
and elements whose active sort keys are equal keep their relative
input order (stability, expressed as preservation of every
equal-key fibre of the input). -/
theorem claim_C4 (l : List Issue) (sortBy : String) :
    (sortReports l sortBy).Perm l ∧
    (sortReports l sortBy).Pairwise (claimOrder sortBy) ∧
    (∀ v : Int, (sortReports l sortBy).filter (fun r => sortKey sortBy r == v) =
      l.filter (fun r => sortKey sortBy r == v)) := by
  refine ⟨List.mergeSort_perm l _, ?_, ?_⟩
  · have h := @List.sorted_mergeSort Issue
      (fun a b => decide (sortCmp sortBy a b ≤ 0))
      (sortLE_trans sortBy) (sortLE_total sortBy) l
    exact h.imp (fun hab => (sortCmp_le_iff sortBy _ _).mp (by simpa using hab))
  · intro v
    set p : Issue → Bool := fun r => sortKey sortBy r == v with hp
    have hsub : List.Sublist (l.filter p) l := List.filter_sublist l
    have hpair : (l.filter p).Pairwise (fun a b => decide (sortCmp sortBy a b ≤ 0) = true) := by
      apply List.pairwise_of_forall_mem_list
      intro a ha b hb
      have ha' : sortKey sortBy a = v := by
        simpa [hp] using (List.mem_filter.mp ha).2
      have hb' : sortKey sortBy b = v := by
        simpa [hp] using (List.mem_filter.mp hb).2
      simpa using sortCmp_zero_of_key_eq sortBy a b (ha'.trans hb'.symm)
    have hst : List.Sublist (l.filter p) (sortReports l sortBy) :=
      List.sublist_mergeSort (sortLE_trans sortBy) (sortLE_total sortBy) hpair hsub
    have hperm : ((sortReports l sortBy).filter p).Perm (l.filter p) :=
      (List.mergeSort_perm l _).filter p
    have hsub2 : List.Sublist (l.filter p) ((sortReports l sortBy).filter p) := by
      have h2 := hst.filter p
      rwa [List.filter_filter, (by funext a; simp : (fun a => p a && p a) = p)] at h2
    exact (hsub2.eq_of_length hperm.length_eq.symm).symm

/-! ## Generic record-accumulation fold

The Analytics aggregators all share the JS idiom
`reduce((acc, x) => { if (!acc[k]) acc[k] = init; mutate acc[k]; return acc }, {})`
over a string-keyed record.  We embed the record as an association list
kept in insertion order with unique keys (the enumeration order of
`Object.values`), and the idiom as `updAssoc`/`groupFold`. -/

/-- Update the entry at key `k`, treating an absent key as holding
`init`; a fresh key is appended at the end (JS property insertion
order). -/
def updAssoc {β : Type} (init : β) (f : β → β) : List (String × β) → String → List (String × β)
  | [], k => [(k, f init)]
  | (k₀, v₀) :: rest, k =>
      if k₀ == k then (k₀, f v₀) :: rest else (k₀, v₀) :: updAssoc init f rest k

/-- The whole grouping fold over an input list. -/
def groupFold {α β : Type} (init : β) (step : α → β → β) (key : α → String)
    (l : List α) : List (String × β) :=
  l.foldl (fun acc i => updAssoc init (step i) acc (key i)) []

theorem lookup_updAssoc {β : Type} (init : β) (f : β → β) (acc : List (String × β))
    (k' k : String) :
    (updAssoc init f acc k').lookup k =
      if k = k' then some (f ((acc.lookup k).getD init)) else acc.lookup k := by
  induction acc with
  | nil =>
    by_cases h : k = k'
    · simp [updAssoc, List.lookup, h, show (k == k') = true from by simpa using h]
    · simp [updAssoc, List.lookup, if_neg h, show (k == k') = false from by simpa using h]
  | cons hd tl ih =>
    obtain ⟨k₀, v₀⟩ := hd
    by_cases h1 : k₀ = k'
    · subst h1
      by_cases h2 : k = k₀
      · simp [updAssoc, List.lookup, if_pos h2,
          show (k == k₀) = true from by simpa using h2]
      · simp [updAssoc, List.lookup, if_neg h2,
          show (k == k₀) = false from by simpa using h2]
    · have hne : (k₀ == k') = false := by simpa using h1
      by_cases h2 : k = k₀
      · have h3 : ¬k = k' := by rw [h2]; exact h1
        simp [updAssoc, List.lookup, hne, if_neg h3,
          show (k == k₀) = true from by simpa using h2]
      · simp [updAssoc, List.lookup, hne, ih,
          show (k == k₀) = false from by simpa using h2]

theorem mem_keys_updAssoc {β : Type} (init : β) (f : β → β) (acc : List (String × β))
    (k k₁ : String) :
    k₁ ∈ (updAssoc init f acc k).map Prod.fst ↔ k₁ ∈ acc.map Prod.fst ∨ k₁ = k := by
  induction acc with
  | nil => simp [updAssoc]
  | cons hd tl ih =>
    obtain ⟨k₀, v₀⟩ := hd
    by_cases h : k₀ = k
    · subst h
      by_cases h2 : k₁ = k₀ <;> simp [updAssoc, h2]
    · simp only [updAssoc, show ¬(k₀ == k) = true by simpa using h, if_neg]
      simp [ih, or_assoc]

theorem nodup_keys_updAssoc {β : Type} (init : β) (f : β → β) (acc : List (String × β))
    (k : String) (h : (acc.map Prod.fst).Nodup) :
    ((updAssoc init f acc k).map Prod.fst).Nodup := by
  induction acc with
  | nil => simp [updAssoc]
  | cons hd tl ih =>
    obtain ⟨k₀, v₀⟩ := hd
    simp only [List.map_cons, List.nodup_cons] at h
    by_cases h1 : k₀ = k
    · subst h1
      simpa [updAssoc] using h
    · have hne : (k₀ == k) = false := by simpa using h1
      rw [show updAssoc init f ((k₀, v₀) :: tl) k = (k₀, v₀) :: updAssoc init f tl k from by
        simp [updAssoc, hne]]
      simp only [List.map_cons, List.nodup_cons]
      refine ⟨?_, ih h.2⟩
      rw [mem_keys_updAssoc]
      rintro (hc | hc)
      · exact h.1 hc
      · exact h1 hc

theorem nodup_keys_groupFold {α β : Type} (init : β) (step : α → β → β) (key : α → String)
    (l : List α) : ((groupFold init step key l).map Prod.fst).Nodup := by
  suffices h : ∀ acc : List (String × β), (acc.map Prod.fst).Nodup →
      ((l.foldl (fun acc i => updAssoc init (step i) acc (key i)) acc).map Prod.fst).Nodup by
    exact h [] (by simp)
  induction l with
  | nil => intro acc hacc; simpa using hacc
  | cons x xs ih =>
    intro acc hacc
    exact ih _ (nodup_keys_updAssoc init (step x) acc (key x) hacc)

theorem lookup_of_mem_nodup {β : Type} (acc : List (String × β))
    (h : (acc.map Prod.fst).Nodup) (k : String) (v : β) (hm : (k, v) ∈ acc) :
    acc.lookup k = some v := by
  induction acc with
  | nil => simp at hm
  | cons hd tl ih =>
    obtain ⟨k₀, v₀⟩ := hd
    simp only [List.map_cons, List.nodup_cons] at h
    rcases List.mem_cons.mp hm with heq | htl
    · injection heq with hk hv
      subst hk
      subst hv
      simp [List.lookup]
    · have hne : k ≠ k₀ := by
        rintro rfl
        exact h.1 (List.mem_map.mpr ⟨(k, v), htl, rfl⟩)
      simp only [List.lookup, show (k == k₀) = false by simpa using hne]
      exact ih h.2 htl

theorem lookup_foldl_updAssoc {α β : Type} (init : β) (step : α → β → β) (key : α → String)
    (l : List α) (acc : List (String × β)) (k : String) :
    (l.foldl (fun a i => updAssoc init (step i) a (key i)) acc).lookup k =
      (l.filter (fun i => key i == k)).foldl (fun v i => some (step i (v.getD init)))
        (acc.lookup k) := by
  induction l generalizing acc with
  | nil => simp
  | cons x xs ih =>
    rw [List.foldl_cons, ih]
    by_cases h : key x = k
    · rw [List.filter_cons_of_pos (by simpa using h), List.foldl_cons,
        lookup_updAssoc, if_pos h.symm]
    · rw [List.filter_cons_of_neg (by simpa using h), lookup_updAssoc,
        if_neg (fun hh => h hh.symm)]

theorem foldl_some_step {α β : Type} (init : β) (step : α → β → β) (fl : List α) :
    ∀ b : β, fl.foldl (fun v i => some (step i (v.getD init))) (some b) =
      some (fl.foldl (fun b i => step i b) b) := by
  induction fl with
  | nil => intro b; simp
  | cons x xs ih => intro b; simpa using ih (step x b)

theorem lookup_groupFold {α β : Type} (init : β) (step : α → β → β) (key : α → String)
    (l : List α) (k : String) :
    (groupFold init step key l).lookup k =
      if (l.filter (fun i => key i == k)).isEmpty then none
      else some ((l.filter (fun i => key i == k)).foldl (fun b i => step i b) init) := by
  unfold groupFold
  rw [lookup_foldl_updAssoc]
  cases hfl : l.filter (fun i => key i == k) with
  | nil => simp
  | cons y ys =>
    rw [List.foldl_cons, foldl_some_step]
    simp

theorem mem_groupFold {α β : Type} (init : β) (step : α → β → β) (key : α → String)
    (l : List α) (k : String) (v : β)
    (hm : (k, v) ∈ groupFold init step key l) :
    (l.filter (fun i => key i == k)) ≠ [] ∧
      v = (l.filter (fun i => key i == k)).foldl (fun b i => step i b) init := by
  have hl := lookup_of_mem_nodup _ (nodup_keys_groupFold init step key l) k v hm
  rw [lookup_groupFold] at hl
  by_cases he : (l.filter (fun i => key i == k)).isEmpty
  · rw [if_pos he] at hl; cases hl
  · rw [if_neg he] at hl
    refine ⟨by simpa [List.isEmpty_iff] using he, (Option.some.inj hl).symm⟩

theorem mem_keys_groupFold {α β : Type} (init : β) (step : α → β → β) (key : α → String)
    (l : List α) (k : String) :
    k ∈ (groupFold init step key l).map Prod.fst ↔ ∃ i ∈ l, key i = k := by
  suffices h : ∀ acc : List (String × β),
      (k ∈ (l.foldl (fun a i => updAssoc init (step i) a (key i)) acc).map Prod.fst ↔
        k ∈ acc.map Prod.fst ∨ ∃ i ∈ l, key i = k) by
    simpa [groupFold] using h []
  induction l with
  | nil => intro acc; simp
  | cons x xs ih =>
    intro acc
    rw [List.foldl_cons, ih, mem_keys_updAssoc]
    constructor
    · rintro ((hc | hc) | hc)
      · exact .inl hc
      · exact .inr ⟨x, by simp, hc.symm⟩
      · rcases hc with ⟨i, hi, hk⟩
        exact .inr ⟨i, by simp [hi], hk⟩
    · rintro (hc | ⟨i, hi, hk⟩)
      · exact .inl (.inl hc)
      · rcases List.mem_cons.mp hi with rfl | hi
        · exact .inl (.inr hk.symm)
        · exact .inr ⟨i, hi, hk⟩

theorem foldl_incr {α : Type} (fl : List α) : ∀ n : Nat,
    fl.foldl (fun b (_ : α) => b + 1) n = n + fl.length := by
  induction fl with
  | nil => intro n; simp
  | cons x xs ih => intro n; simp [ih]; omega

theorem sum_snd_updAssoc_incr (acc : List (String × Nat)) (k : String) :
    ((updAssoc 0 (fun c => c + 1) acc k).map Prod.snd).sum =
      (acc.map Prod.snd).sum + 1 := by
  induction acc with
  | nil => simp [updAssoc]
  | cons hd tl ih =>
    obtain ⟨k₀, v₀⟩ := hd
    by_cases h : k₀ = k
    · simp [updAssoc, show (k₀ == k) = true from by simpa using h]
      omega
    · simp [updAssoc, show (k₀ == k) = false from by simpa using h, ih]
      omega

theorem sum_groupFold_incr {α : Type} (key : α → String) (l : List α) :
    ((groupFold 0 (fun _ c => c + 1) key l).map Prod.snd).sum = l.length := by
  suffices h : ∀ acc : List (String × Nat),
      ((l.foldl (fun a i => updAssoc 0 (fun c => c + 1) a (key i)) acc).map Prod.snd).sum =
        (acc.map Prod.snd).sum + l.length by
    simpa [groupFold] using h []
  induction l with
  | nil => intro acc; simp
  | cons x xs ih =>
    intro acc
    rw [List.foldl_cons]
    rw [ih]
    rw [sum_snd_updAssoc_incr]
    simp [List.length_cons]
    omega

/-! ## Analytics: day-of-week aggregation -/

/-- The fixed bucket order used by the day-of-week chart. -/
def daysOfWeek : List String := ["Sun", "Mon", "Tue", "Wed", "Thu", "Fri", "Sat"]

/-- Model of `new Date(t).getDay()` with the environment at UTC: the
weekday index 0..6 (0 = Sunday) of the epoch-millisecond timestamp. -/
def getDay (t : Int) : Nat := ((t.fdiv 86400000 + 4) % 7).toNat

/-- The day-name key `daysOfWeek[getDay(t)]` used by the aggregation. -/
def dayName (t : Int) : String := daysOfWeek.getD (getDay t) ""

/-- One output bucket of the day-of-week chart. -/
structure ReportsByDayData where
  day : String
  count : Nat
deriving Repr, DecidableEq

/-- Model of `processReportsByDay`: group by day name, then emit the seven
canonical buckets in order, defaulting a missing day to count 0. -/
def processReportsByDay (issues : List Issue) : List ReportsByDayData :=
  let data := groupFold 0 (fun _ c => c + 1) (fun i => dayName i.created_at) issues
  daysOfWeek.map (fun d =>
    match data.lookup d with
    | some c => ⟨d, c⟩
    | none => ⟨d, 0⟩)

theorem getDay_lt (t : Int) : getDay t < 7 := by
  unfold getDay
  have h1 : (0 : Int) ≤ (t.fdiv 86400000 + 4) % 7 := Int.emod_nonneg _ (by decide)
  have h2 : (t.fdiv 86400000 + 4) % 7 < 7 := Int.emod_lt_of_pos _ (by decide)
  omega

theorem groupFold_incr_lookup {α : Type} (key : α → String) (l : List α) (k : String) :
    (groupFold 0 (fun _ c => c + 1) key l).lookup k =
      if (l.filter (fun i => key i == k)).isEmpty then none
      else some ((l.filter (fun i => key i == k)).length) := by
  rw [lookup_groupFold]
  by_cases h : (l.filter (fun i => key i == k)).isEmpty
  · simp [h]
  · rw [if_neg h, if_neg h]
    congr 1
    simpa using foldl_incr (l.filter (fun i => key i == k)) 0

theorem sum_map_add_nat {γ : Type} (L : List γ) (f g : γ → Nat) :
    (L.map (fun d => f d + g d)).sum = (L.map f).sum + (L.map g).sum := by
  induction L with
  | nil => simp
  | cons a L ih =>
    simp [ih]
    omega

theorem sum_ite_count (s : String) (L : List String) :
    (L.map (fun d => if s == d then 1 else 0)).sum = L.count s := by
  induction L with
  | nil => simp
  | cons d L ih =>
    simp only [List.map_cons, List.sum_cons, ih, List.count_cons]
    by_cases h : s = d
    · simp [h]
      omega
    · rw [show (s == d) = false from by simpa using h,
        show (d == s) = false from by simpa using Ne.symm h]
      simp

theorem sum_countP_days (issues : List Issue) :
    (daysOfWeek.map (fun d => issues.countP (fun i => dayName i.created_at == d))).sum =
      issues.length := by
  induction issues with
  | nil => simp
  | cons x xs ih =>
    have hcount : ∀ n < 7, List.count (daysOfWeek.getD n "") daysOfWeek = 1 := by decide
    simp only [List.countP_cons]
    rw [sum_map_add_nat, ih, sum_ite_count]
    rw [show dayName x.created_at = daysOfWeek.getD (getDay x.created_at) "" from rfl]
    rw [hcount _ (getDay_lt x.created_at)]
    simp

theorem processReportsByDay_bucket (issues : List Issue) (d : String) :
    (match (groupFold 0 (fun _ c => c + 1)
        (fun i => dayName i.created_at) issues).lookup d with
      | some c => (⟨d, c⟩ : ReportsByDayData)
      | none => (⟨d, 0⟩ : ReportsByDayData)) =
      ⟨d, issues.countP (fun i => dayName i.created_at == d)⟩ := by
  rw [groupFold_incr_lookup]
  by_cases h : (issues.filter (fun i => dayName i.created_at == d)).isEmpty
  · rw [if_pos h]
    have : issues.countP (fun i => dayName i.created_at == d) = 0 := by
      rw [List.countP_eq_length_filter]
      simpa [List.isEmpty_iff] using h
    simp [this]
  · rw [if_neg h]
    rw [List.countP_eq_length_filter]

/-- C5: the day-of-week aggregation emits exactly 7 buckets in the
fixed order Sun..Sat, each bucket's count is the number of input
issues created on that weekday (0 when none), and the counts sum to
the number of input issues. -/
theorem claim_C5 (issues : List Issue) :
    (processReportsByDay issues).map (fun b => b.day) = daysOfWeek ∧
    ((processReportsByDay issues).map (fun b => b.count)).sum = issues.length ∧
    (∀ b ∈ processReportsByDay issues,
      b.count = issues.countP (fun i => dayName i.created_at == b.day)) := by
  have hbucket : processReportsByDay issues =
      daysOfWeek.map (fun d =>
        ⟨d, issues.countP (fun i => dayName i.created_at == d)⟩) := by
    unfold processReportsByDay
    apply List.map_congr_left
    intro d _
    exact processReportsByDay_bucket issues d
  refine ⟨?_, ?_, ?_⟩
  · rw [hbucket, List.map_map]
    exact List.map_id daysOfWeek ▸ rfl
  · rw [hbucket, List.map_map]
    exact sum_countP_days issues
  · intro b hb
    rw [hbucket] at hb
    rcases List.mem_map.mp hb with ⟨d, _, rfl⟩
    rfl

/-- Closed instantiation of C5: the Friday bucket of the singleton
sample input (created 2024-01-05, a Friday) counts exactly the sample
issue. -/
theorem claim_C5_witness :
    (⟨"Fri", 1⟩ : ReportsByDayData).count =
      [sampleIssue].countP (fun i => dayName i.created_at == "Fri") :=
  (claim_C5 [sampleIssue]).2.2 ⟨"Fri", 1⟩ (by decide)

/-! ## Analytics: location hotspot aggregation -/

/-- One output bucket of the location hotspot chart. -/
structure LocationHotspotData where
  location : String
  count : Nat
deriving Repr, DecidableEq

/-- All location buckets (absent location_name grouped as "Unknown"),
sorted descending by count: the value of
`Object.values(data).sort((a,b) => b.count - a.count)` before the
`slice(0, 10)` truncation. -/
def hotspotAll (issues : List Issue) : List LocationHotspotData :=
  ((groupFold 0 (fun _ c => c + 1)
      (fun i => i.location_name.getD "Unknown") issues).map
    (fun e => (⟨e.1, e.2⟩ : LocationHotspotData))).mergeSort
    (fun a b => decide (b.count ≤ a.count))

/-- Model of `processLocationHotspots`: the top ten hotspot buckets. -/
def processLocationHotspots (issues : List Issue) : List LocationHotspotData :=
  (hotspotAll issues).take 10

theorem hotspotLE_trans : ∀ (a b c : LocationHotspotData),
    (fun a b : LocationHotspotData => decide (b.count ≤ a.count)) a b →
    (fun a b : LocationHotspotData => decide (b.count ≤ a.count)) b c →
    (fun a b : LocationHotspotData => decide (b.count ≤ a.count)) a c := by
  intro a b c hab hbc
  simp only [decide_eq_true_eq] at *
  omega

theorem hotspotLE_total : ∀ (a b : LocationHotspotData),
    (fun a b : LocationHotspotData => decide (b.count ≤ a.count)) a b ||
    (fun a b : LocationHotspotData => decide (b.count ≤ a.count)) b a := by
  intro a b
  by_cases h : b.count ≤ a.count
  · simp [h]
  · simp [h]
    omega

/-- C6: the hotspot output keeps at most 10 buckets, is sorted
descending by count, the counts of all buckets before the top-10
truncation sum to the number of input issues, and each bucket counts
exactly the issues whose (defaulted) location_name equals its
location. -/
theorem claim_C6 (issues : List Issue) :
    (processLocationHotspots issues).length ≤ 10 ∧
    (processLocationHotspots issues).Pairwise (fun a b => b.count ≤ a.count) ∧
    ((hotspotAll issues).map (fun b => b.count)).sum = issues.length ∧
    (∀ b ∈ hotspotAll issues,
      b.count = issues.countP (fun i => i.location_name.getD "Unknown" == b.location)) := by
  refine ⟨?_, ?_, ?_, ?_⟩
  · simp [processLocationHotspots]
  · have hsorted := @List.sorted_mergeSort LocationHotspotData
      (fun a b => decide (b.count ≤ a.count))
      hotspotLE_trans hotspotLE_total
      ((groupFold 0 (fun _ c => c + 1)
          (fun i => i.location_name.getD "Unknown") issues).map
        (fun e => (⟨e.1, e.2⟩ : LocationHotspotData)))
    have hpair : (hotspotAll issues).Pairwise (fun a b => b.count ≤ a.count) :=
      hsorted.imp (fun h => by simpa using h)
    exact hpair.sublist (List.take_sublist 10 _)
  · have hperm := List.mergeSort_perm
      ((groupFold 0 (fun _ c => c + 1)
          (fun i => i.location_name.getD "Unknown") issues).map
        (fun e => (⟨e.1, e.2⟩ : LocationHotspotData)))
      (fun a b : LocationHotspotData => decide (b.count ≤ a.count))
    rw [show ((hotspotAll issues).map (fun b => b.count)).sum =
        (((groupFold 0 (fun _ c => c + 1)
            (fun i => i.location_name.getD "Unknown") issues).map
          (fun e => (⟨e.1, e.2⟩ : LocationHotspotData))).map (fun b => b.count)).sum from
      (hperm.map (fun b => b.count)).sum_eq]
    rw [List.map_map]
    exact sum_groupFold_incr (fun i => i.location_name.getD "Unknown") issues
  · intro b hb
    have hb' := List.mem_mergeSort.mp hb
    rcases List.mem_map.mp hb' with ⟨e, he, rfl⟩
    obtain ⟨k, v⟩ := e
    rcases mem_groupFold _ _ _ issues k v he with ⟨hne, hv⟩
    have hlen := foldl_incr (issues.filter (fun i => i.location_name.getD "Unknown" == k)) 0
    rw [Nat.zero_add] at hlen
    rw [List.countP_eq_length_filter]
    exact hv.trans hlen

/-- Closed instantiation of C6: the single hotspot bucket of the
singleton sample input counts exactly the sample issue. -/
theorem claim_C6_witness :
    (⟨"Midtown", 1⟩ : LocationHotspotData).count =
      [sampleIssue].countP (fun i => i.location_name.getD "Unknown" == "Midtown") :=
  (claim_C6 [sampleIssue]).2.2.2 ⟨"Midtown", 1⟩
    (by simp [hotspotAll, groupFold, updAssoc, sampleIssue])

/-! ## Analytics: monthly aggregation -/

/-- Short month names used by the `short`-month date format. -/
def monthNames : List String :=
  ["Jan", "Feb", "Mar", "Apr", "May", "Jun",
   "Jul", "Aug", "Sep", "Oct", "Nov", "Dec"]

/-- Civil calendar date (year, month 1..12) of a day count relative to
the epoch 1970-01-01, via the standard days-from-civil inversion. -/
def daysToCivil (z₀ : Int) : Int × Nat :=
  let z := z₀ + 719468
  let era := z.fdiv 146097
  let doe := z - era * 146097
  let yoe := (doe - doe / 1460 + doe / 36524 - doe / 146096) / 365
  let y := yoe + era * 400
  let doy := doe - (365 * yoe + yoe / 4 - yoe / 100)
  let mp := (5 * doy + 2) / 153
  let m := mp + (if mp < 10 then 3 else -9)
  (y + (if m ≤ 2 then 1 else 0), m.toNat)

/-- Model of `toLocaleString('default', { month: 'short', year:
'2-digit' })` applied to an epoch-millisecond timestamp (UTC
environment): e.g. "Jan 24". -/
def formatMonth (t : Int) : String :=
  let civ := daysToCivil (t.fdiv 86400000)
  let y2 := (civ.1 % 100).toNat
  monthNames.getD (civ.2 - 1) "" ++ " " ++
    (if y2 < 10 then "0" else "") ++ toString y2

/-- One output bucket of the monthly reports chart. -/
structure MonthlyReportData where
  month : String
  total : Nat
  resolved : Nat
deriving Repr, DecidableEq

/-- Model of `processMonthlyReports`: group by formatted month of created_at,
accumulating a total count and a resolved count per bucket. -/
def processMonthlyReports (issues : List Issue) : List MonthlyReportData :=
  (groupFold ((0 : Nat), (0 : Nat))
    (fun issue tr =>
      (tr.1 + 1, if issue.status == "resolved" then tr.2 + 1 else tr.2))
    (fun issue => formatMonth issue.created_at) issues).map
    (fun e => ⟨e.1, e.2.1, e.2.2⟩)

theorem monthly_fold_char (l : List Issue) : ∀ t r : Nat,
    l.foldl
      (fun tr issue =>
        (tr.1 + 1, if issue.status == "resolved" then tr.2 + 1 else tr.2)) (t, r) =
      (t + l.length, r + l.countP (fun issue => issue.status == "resolved")) := by
  induction l with
  | nil => intro t r; simp
  | cons x xs ih =>
    intro t r
    rw [List.foldl_cons, ih]
    by_cases h : x.status == "resolved"
    · simp [h, List.countP_cons]
      omega
    · simp only [h, if_neg (by simpa using h), List.length_cons, List.countP_cons]
      simp [show ((x.status == "resolved") = true) = False from by simpa using h]
      omega

/-- First example issue of the spec scenario: Pothole created
2024-01-05, status new. -/
def exampleIssueA : Issue :=
  { id := 10, title := "Pothole A", description := "a", category := "Pothole",
    status := "new", location_name := some "Main St", created_at := 1704412800000,
    resolved_at := none, upvotes_count := none, priority_score := none,
    is_spam := false }

/-- Second example issue of the spec scenario: Pothole created
2024-01-10, resolved 2024-01-12. -/
def exampleIssueB : Issue :=
  { id := 11, title := "Pothole B", description := "b", category := "Pothole",
    status := "resolved", location_name := some "Main St",
    created_at := 1704844800000, resolved_at := some 1705017600000,
    upvotes_count := none, priority_score := none, is_spam := false }

/-- C7: every emitted monthly bucket corresponds to at least one input
issue and carries the exact total and resolved counts of its month,
and on the spec's two-issue example the output is the single bucket
"Jan 24" with total 2 and resolved 1. -/
theorem claim_C7 (issues : List Issue) :
    (∀ b ∈ processMonthlyReports issues,
      0 < b.total ∧
      b.total = issues.countP (fun i => formatMonth i.created_at == b.month) ∧
      b.resolved = issues.countP
        (fun i => formatMonth i.created_at == b.month && i.status == "resolved")) ∧
    processMonthlyReports [exampleIssueA, exampleIssueB] =
      [⟨"Jan 24", 2, 1⟩] := by
  constructor
  · intro b hb
    rcases List.mem_map.mp hb with ⟨e, he, rfl⟩
    obtain ⟨k, v⟩ := e
    rcases mem_groupFold _ _ _ issues k v he with ⟨hne, hv⟩
    have hv' : v =
        ((issues.filter (fun i => formatMonth i.created_at == k)).length,
          (issues.filter (fun i => formatMonth i.created_at == k)).countP
            (fun issue => issue.status == "resolved")) := by
      rw [hv]
      have hc := monthly_fold_char
        (issues.filter (fun i => formatMonth i.created_at == k)) 0 0
      simpa using hc
    refine ⟨?_, ?_, ?_⟩
    · have hpos : 0 < (issues.filter (fun i => formatMonth i.created_at == k)).length :=
        List.length_pos.mpr hne
      simpa [hv'] using hpos
    · rw [List.countP_eq_length_filter]
      simp [hv']
    · rw [show (⟨k, v.1, v.2⟩ : MonthlyReportData).resolved = v.2 from rfl, hv']
      rw [List.countP_filter]
      exact List.countP_congr (fun x _ => by
        constructor
        · intro hx
          simpa [Bool.and_comm] using hx
        · intro hx
          simpa [Bool.and_comm] using hx)
  · decide

/-- Closed instantiation of C7 at the spec's example bucket. -/
theorem claim_C7_witness :
    0 < (⟨"Jan 24", 2, 1⟩ : MonthlyReportData).total ∧
    (⟨"Jan 24", 2, 1⟩ : MonthlyReportData).total =
      [exampleIssueA, exampleIssueB].countP
        (fun i => formatMonth i.created_at == "Jan 24") ∧
    (⟨"Jan 24", 2, 1⟩ : MonthlyReportData).resolved =
      [exampleIssueA, exampleIssueB].countP
        (fun i => formatMonth i.created_at == "Jan 24" && i.status == "resolved") :=
  (claim_C7 [exampleIssueA, exampleIssueB]).1 ⟨"Jan 24", 2, 1⟩ (by decide)

/-! ## Analytics: resolution-time aggregation (alternate dashboard) -/

/-- One output bucket of the resolution-time chart. -/
structure ResolutionTimeData where
  category : String
  avg_time_hours : Rat
deriving Repr, DecidableEq

/-- The elapsed time between two epoch-millisecond timestamps,
expressed in hours (`timeDiff / (1000 * 60 * 60)`). -/
def hoursBetween (created resolved : Int) : Rat :=
  ((resolved - created : Int) : Rat) / (1000 * 60 * 60)

/-- Model of `processResolutionTimes`: restrict to resolved issues carrying a
resolved_at, group by category accumulating total hours and a count,
then emit the per-category average. -/
def processResolutionTimes (issues : List Issue) : List ResolutionTimeData :=
  let resolvedIssues :=
    issues.filter (fun i => i.status == "resolved" && i.resolved_at.isSome)
  (groupFold ((0 : Rat), (0 : Nat))
    (fun issue tc =>
      (tc.1 + hoursBetween issue.created_at (issue.resolved_at.getD 0), tc.2 + 1))
    (fun issue => issue.category) resolvedIssues).map
    (fun e => ⟨e.1, e.2.1 / (e.2.2 : Rat)⟩)

theorem resolution_fold_char (l : List Issue) : ∀ (t : Rat) (n : Nat),
    l.foldl (fun tc issue =>
        (tc.1 + hoursBetween issue.created_at (issue.resolved_at.getD 0), tc.2 + 1))
      (t, n) =
      (t + (l.map (fun i => hoursBetween i.created_at (i.resolved_at.getD 0))).sum,
        n + l.length) := by
  induction l with
  | nil => intro t n; simp
  | cons x xs ih =>
    intro t n
    rw [List.foldl_cons, ih]
    simp only [List.map_cons, List.sum_cons, List.length_cons, Prod.mk.injEq]
    constructor
    · ring
    · omega

theorem resolved_filter_swap (issues : List Issue) (k : String) :
    (issues.filter (fun i => i.status == "resolved" && i.resolved_at.isSome)).filter
      (fun i => i.category == k) =
    issues.filter (fun i =>
      (i.status == "resolved" && i.resolved_at.isSome) && i.category == k) := by
  rw [List.filter_filter]
  exact List.filter_congr (fun x _ => Bool.and_comm _ _)

/-- C8: every emitted resolution-time bucket is the arithmetic mean,
in hours, of resolved_at − created_at over exactly the issues with
status resolved, a present resolved_at, and that bucket's category;
every category holding such an issue gets a bucket; and on the spec's
example the Pothole average is 48 hours. -/
theorem claim_C8 (issues : List Issue) :
    (∀ b ∈ processResolutionTimes issues,
      (issues.filter (fun i => (i.status == "resolved" && i.resolved_at.isSome) &&
          i.category == b.category)) ≠ [] ∧
      b.avg_time_hours =
        ((issues.filter (fun i => (i.status == "resolved" && i.resolved_at.isSome) &&
            i.category == b.category)).map
          (fun i => hoursBetween i.created_at (i.resolved_at.getD 0))).sum /
        (((issues.filter (fun i => (i.status == "resolved" && i.resolved_at.isSome) &&
            i.category == b.category)).length : Nat) : Rat)) ∧
    (∀ c : String,
      (∃ i ∈ issues,
        ((i.status == "resolved" && i.resolved_at.isSome) && i.category == c) = true) →
      ∃ b ∈ processResolutionTimes issues, b.category = c) ∧
    processResolutionTimes [exampleIssueA, exampleIssueB] = [⟨"Pothole", 48⟩] := by
  refine ⟨?_, ?_, ?_⟩
  · intro b hb
    rcases List.mem_map.mp hb with ⟨e, he, rfl⟩
    obtain ⟨k, v⟩ := e
    rcases mem_groupFold _ _ _ _ k v he with ⟨hne, hv⟩
    rw [resolved_filter_swap] at hne
    have hv' : v =
        ((((issues.filter (fun i => (i.status == "resolved" && i.resolved_at.isSome) &&
            i.category == k))).map
          (fun i => hoursBetween i.created_at (i.resolved_at.getD 0))).sum,
          (issues.filter (fun i => (i.status == "resolved" && i.resolved_at.isSome) &&
            i.category == k)).length) := by
      rw [hv, ← resolved_filter_swap]
      have hc := resolution_fold_char
        ((issues.filter (fun i => i.status == "resolved" && i.resolved_at.isSome)).filter
          (fun i => i.category == k)) 0 0
      simpa using hc
    exact ⟨hne, by simp [hv']⟩
  · intro c hc
    rcases hc with ⟨i, hi, hpred⟩
    rw [Bool.and_eq_true] at hpred
    have hkey : c ∈ (groupFold ((0 : Rat), (0 : Nat))
        (fun issue tc =>
          (tc.1 + hoursBetween issue.created_at (issue.resolved_at.getD 0), tc.2 + 1))
        (fun issue => issue.category)
        (issues.filter (fun i => i.status == "resolved" && i.resolved_at.isSome))).map
          Prod.fst := by
      rw [mem_keys_groupFold]
      refine ⟨i, List.mem_filter.mpr ⟨hi, hpred.1⟩, by simpa using hpred.2⟩
    rcases List.mem_map.mp hkey with ⟨e, he, heq⟩
    exact ⟨⟨e.1, e.2.1 / (e.2.2 : Rat)⟩,
      List.mem_map.mpr ⟨e, he, rfl⟩, heq⟩
  · have hstep : processResolutionTimes [exampleIssueA, exampleIssueB] =
        [⟨"Pothole", (0 + hoursBetween 1704844800000 1705017600000) / ((1 : Nat) : Rat)⟩] := by
      simp [processResolutionTimes, groupFold, updAssoc, exampleIssueA, exampleIssueB]
    rw [hstep]
    have hval : (0 + hoursBetween 1704844800000 1705017600000) / ((1 : Nat) : Rat) = 48 := by
      unfold hoursBetween
      norm_num
    rw [hval]

/-- Closed instantiation of C8: Pothole gets a resolution-time bucket
on the example input. -/
theorem claim_C8_witness :
    ∃ b ∈ processResolutionTimes [exampleIssueA, exampleIssueB],
      b.category = "Pothole" :=
  (claim_C8 [exampleIssueA, exampleIssueB]).2.1 "Pothole"
    ⟨exampleIssueB, by decide, by decide⟩

/-! ## Report Submission Form validation -/

/-- The geolocation value resolved before submit. -/
structure GeoLocation where
  lat : Int
  lng : Int
  name : String
deriving Repr, DecidableEq

/-- The form state at the moment submit is pressed. -/
structure ReportForm where
  location : Option GeoLocation
  photo : Option String
  title : String
  category : String
  description : String
  streetAddress : String
  landmark : String
deriving Repr, DecidableEq

/-- Externally observable actions of `handleSubmit`, in order. -/
inductive Effect where
  | toast (title : String)
  | storageUpload
  | dbInsert
deriving Repr, DecidableEq

/-- The first validation check: `!location || location.name ===
"Location unavailable"`. -/
def locationMissing (form : ReportForm) : Bool :=
  match form.location with
  | none => true
  | some loc => loc.name == "Location unavailable"

/-- The third validation check: `!title || !category || !description
|| !streetAddress || !landmark` (empty strings are falsy). -/
def requiredFieldMissing (form : ReportForm) : Bool :=
  form.title == "" || form.category == "" || form.description == "" ||
    form.streetAddress == "" || form.landmark == ""

/-- The submit handler as the ordered list of effects it performs,
parametrised by whether the photo upload and the row insert succeed.
Validation runs strictly before any storage or database call. -/
def handleSubmit (form : ReportForm) (uploadOk insertOk : Bool) : List Effect :=
  if locationMissing form then [.toast "Location Required"]
  else if form.photo.isNone then [.toast "Photo Required"]
  else if requiredFieldMissing form then [.toast "Missing Information"]
  else if !uploadOk then [.storageUpload, .toast "Submission Failed"]
  else if !insertOk then [.storageUpload, .dbInsert, .toast "Submission Failed"]
  else [.storageUpload, .dbInsert, .toast "Report Submitted!"]

/-- C9: the submit preconditions are checked in the fixed order
location → photo → required fields, each failure producing only its
targeted notification; in particular a submission with no attached
photo performs no storage upload and no database insert, regardless of
the transport outcomes. -/
theorem claim_C9 (form : ReportForm) (uploadOk insertOk : Bool) :
    (locationMissing form = true →
      handleSubmit form uploadOk insertOk = [Effect.toast "Location Required"]) ∧
    (locationMissing form = false → form.photo = none →
      handleSubmit form uploadOk insertOk = [Effect.toast "Photo Required"]) ∧
    (locationMissing form = false → form.photo.isSome = true →
      requiredFieldMissing form = true →
      handleSubmit form uploadOk insertOk = [Effect.toast "Missing Information"]) ∧
    (form.photo = none →
      Effect.storageUpload ∉ handleSubmit form uploadOk insertOk ∧
      Effect.dbInsert ∉ handleSubmit form uploadOk insertOk) := by
  refine ⟨?_, ?_, ?_, ?_⟩
  · intro h
    simp [handleSubmit, h]
  · intro h hp
    simp [handleSubmit, h, hp]
  · intro h hp hr
    simp [handleSubmit, h, hr, Option.isNone_iff_eq_none, Option.isSome_iff_ne_none.mp hp]
  · intro hp
    by_cases h : locationMissing form
    · simp [handleSubmit, h]
    · simp [handleSubmit, h, hp]

/-- A concrete form with a resolved location but no photo. -/
def photolessForm : ReportForm :=
  { location := some ⟨40, -73, "Midtown"⟩, photo := none,
    title := "Pothole", category := "Pothole", description := "deep",
    streetAddress := "1 Elm St", landmark := "Park" }

/-- Closed instantiation of C9: the photoless form is rejected with
the photo notification and performs no network call. -/
theorem claim_C9_witness :
    handleSubmit photolessForm true true = [Effect.toast "Photo Required"] ∧
    Effect.storageUpload ∉ handleSubmit photolessForm true true ∧
    Effect.dbInsert ∉ handleSubmit photolessForm true true :=
  ⟨(claim_C9 photolessForm true true).2.1 (by decide) (by decide),
    (claim_C9 photolessForm true true).2.2.2 (by decide)⟩

/-! ## Analytics spam-insensitivity -/

/-- The analytics fetch: `select('*')` with no equality filter — the
whole table snapshot, spam rows included, reaches the aggregators. -/
def analyticsFetchRows (tableRows : List Issue) : List Issue := tableRows

/-- One output bucket of the category distribution chart (alternate
dashboard). -/
structure CategoryDistributionData where
  category : String
  count : Nat
deriving Repr, DecidableEq

/-- Model of `processCategoryDistribution` (alternate dashboard): group by
category and count. -/
def processCategoryDistribution (issues : List Issue) : List CategoryDistributionData :=
  (groupFold 0 (fun _ c => c + 1) (fun i => i.category) issues).map
    (fun e => ⟨e.1, e.2⟩)

/-- The fixed chart palette of the primary dashboard. -/
def COLORS : List String :=
  ["#0088FE", "#00C49F", "#FFBB28", "#FF8042", "#AF19FF", "#FF1943"]

/-- One output bucket of the category distribution chart (primary
dashboard), carrying a display color. -/
structure CategoryFillData where
  name : String
  count : Nat
  fill : String
deriving Repr, DecidableEq

/-- Model of `processCategoryDistribution` (primary dashboard): group by
category, sort descending by count, and cycle the palette by rank. -/
def processCategoryDistributionSorted (issues : List Issue) : List CategoryFillData :=
  (((groupFold 0 (fun _ c => c + 1) (fun i => i.category) issues).mergeSort
      (fun a b => decide (b.2 ≤ a.2))).enum).map
    (fun ie => ⟨ie.2.1, ie.2.2, COLORS.getD (ie.1 % COLORS.length) ""⟩)

/-- Reassign every row's is_spam flag (arbitrarily per row), leaving
every other field unchanged. -/
def setSpamFlags (f : Issue → Bool) (issues : List Issue) : List Issue :=
  issues.map (fun i => { i with is_spam := f i })

theorem groupFold_map_invariant {α β : Type} (init : β) (step : α → β → β)
    (key : α → String) (m : α → α)
    (hstep : ∀ i, step (m i) = step i) (hkey : ∀ i, key (m i) = key i) (l : List α) :
    groupFold init step key (l.map m) = groupFold init step key l := by
  unfold groupFold
  rw [List.foldl_map]
  congr 1
  funext acc i
  rw [hstep, hkey]

theorem groupFold_setSpam {β : Type} (f : Issue → Bool) (init : β)
    (step : Issue → β → β) (key : Issue → String)
    (hstep : ∀ i : Issue, step { i with is_spam := f i } = step i)
    (hkey : ∀ i : Issue, key { i with is_spam := f i } = key i) (l : List Issue) :
    groupFold init step key (setSpamFlags f l) = groupFold init step key l :=
  groupFold_map_invariant init step key (fun i => { i with is_spam := f i }) hstep hkey l

theorem filter_setSpam (f : Issue → Bool) (p : Issue → Bool)
    (hp : ∀ i : Issue, p { i with is_spam := f i } = p i) (l : List Issue) :
    (setSpamFlags f l).filter p = setSpamFlags f (l.filter p) := by
  unfold setSpamFlags
  rw [List.filter_map]
  congr 1
  exact List.filter_congr (fun x _ => hp x)

/-- C10: the analytics fetch applies no spam filter and none of the
aggregators reads is_spam, so reassigning every issue's is_spam flag
arbitrarily leaves every aggregate output unchanged — spam-flagged
issues are counted in all analytics summaries. -/
theorem claim_C10 (issues : List Issue) (f : Issue → Bool) :
    analyticsFetchRows issues = issues ∧
    processMonthlyReports (setSpamFlags f issues) = processMonthlyReports issues ∧
    processCategoryDistribution (setSpamFlags f issues) =
      processCategoryDistribution issues ∧
    processCategoryDistributionSorted (setSpamFlags f issues) =
      processCategoryDistributionSorted issues ∧
    processReportsByDay (setSpamFlags f issues) = processReportsByDay issues ∧
    processLocationHotspots (setSpamFlags f issues) = processLocationHotspots issues ∧
    processResolutionTimes (setSpamFlags f issues) = processResolutionTimes issues := by
  have hcat := groupFold_setSpam f 0 (fun _ c => c + 1) (fun i => i.category)
    (fun i => rfl) (fun i => rfl) issues
  refine ⟨rfl, ?_, ?_, ?_, ?_, ?_, ?_⟩
  · unfold processMonthlyReports
    rw [groupFold_setSpam f ((0 : Nat), (0 : Nat))
      (fun issue tr => (tr.1 + 1, if issue.status == "resolved" then tr.2 + 1 else tr.2))
      (fun issue => formatMonth issue.created_at) (fun i => rfl) (fun i => rfl) issues]
  · unfold processCategoryDistribution
    rw [hcat]
  · unfold processCategoryDistributionSorted
    rw [hcat]
  · unfold processReportsByDay
    rw [groupFold_setSpam f 0 (fun _ c => c + 1) (fun i => dayName i.created_at)
      (fun i => rfl) (fun i => rfl) issues]
  · unfold processLocationHotspots hotspotAll
    rw [groupFold_setSpam f 0 (fun _ c => c + 1) (fun i => i.location_name.getD "Unknown")
      (fun i => rfl) (fun i => rfl) issues]
  · simp only [processResolutionTimes]
    rw [filter_setSpam f (fun i => i.status == "resolved" && i.resolved_at.isSome)
      (fun i => rfl) issues]
    rw [groupFold_setSpam f ((0 : Rat), (0 : Nat))
      (fun issue tc =>
        (tc.1 + hoursBetween issue.created_at (issue.resolved_at.getD 0), tc.2 + 1))
      (fun issue => issue.category) (fun i => rfl) (fun i => rfl)
      (issues.filter (fun i => i.status == "resolved" && i.resolved_at.isSome))]
